import Mathlib

/-!
Verification of the sentiment classification engine of `mcp-l-core`
(`lib/middleware/sentiment/analyzer.js`).

The JavaScript source is shallowly embedded below:
* text is modelled as `List Char`; `String.prototype.toLowerCase` is modelled
  on the ASCII range; the split regex `/\s+/` is modelled by the JS whitespace
  class;
* the per-term regex `new RegExp('\\b' + term + '\\b|' + term, 'gi')` used with
  `String.prototype.match` counts leftmost non-overlapping occurrences of the
  (literal) term, advancing by one position on an empty match, which is what
  `countOccs` computes;
* JS floating point numbers produced by the scorer are modelled exactly: every
  confidence the scorer can produce is either a decimal literal (a multiple of
  `1/100`) or of the form `0.7 + S / (D * sqrt w)`; the type `JsNum` carries
  that exact representation and the comparisons the source performs on such
  numbers (`Math.min` with `0.98`, `confidence < confidenceThreshold`) are
  implemented as decidable integer tests and proved equivalent to the
  real-number comparisons (`JsNum.leCent_iff`, `JsNum.ltCent_iff`).
-/

namespace MCPL

/-- Text is a list of characters. -/
abbrev Str := List Char

/-- The apostrophe character, used in dictionary phrases. -/
def apoChar : Char := Char.ofNat 39

/-- Whitespace characters matched by the JavaScript regex class `\s`. -/
def isJsWs (c : Char) : Bool :=
  c = ' ' || c = Char.ofNat 9 || c = Char.ofNat 10 || c = Char.ofNat 11 ||
  c = Char.ofNat 12 || c = Char.ofNat 13 || c = Char.ofNat 160 ||
  c = Char.ofNat 5760 || (Char.ofNat 8192 ≤ c && c ≤ Char.ofNat 8202) ||
  c = Char.ofNat 8232 || c = Char.ofNat 8233 || c = Char.ofNat 8239 ||
  c = Char.ofNat 8287 || c = Char.ofNat 12288 || c = Char.ofNat 65279

/-- ASCII model of `String.prototype.toLowerCase`. -/
def lowerChar (c : Char) : Char :=
  if 'A' ≤ c ∧ c ≤ 'Z' then Char.ofNat (c.toNat + 32) else c

/-- Lowercasing of a text (`content.toLowerCase()`). -/
def lowerStr (s : Str) : Str := s.map lowerChar

/-- `p` is a prefix of `s` (decidable, by direct recursion). -/
def isPref : Str → Str → Bool
  | [], _ => true
  | _ :: _, [] => false
  | a :: as, b :: bs => a = b && isPref as bs

/-- The scan of the global regex, position by position: `skip` is the
number of positions still covered by the previous match (within which no
new match is attempted).  On a match at the current position the scan
counts it and skips the rest of the matched text; an empty match advances
by a single position (the regex engine bumps `lastIndex` after an empty
match). -/
def countOccsAux (p : Str) : Str → ℕ → ℕ
  | [], skip => if skip = 0 ∧ p = [] then 1 else 0
  | c :: rest, skip =>
      if skip = 0 then
        if isPref p (c :: rest) then 1 + countOccsAux p rest (max p.length 1 - 1)
        else countOccsAux p rest 0
      else countOccsAux p rest (skip - 1)

/-- Number of matches of the pattern `\bterm\b|term` (flags `gi`) in `s`:
leftmost non-overlapping occurrences of the literal term, where an empty
term matches once at every position.  This models
`(lowerContent.match(regex) || []).length` in the scoring loop. -/
def countOccs (p : Str) (s : Str) : ℕ := countOccsAux p s 0

/-- `String.prototype.includes`: `p` occurs as a contiguous substring of `s`. -/
def containsSub (p : Str) : Str → Bool
  | [] => p.isEmpty
  | c :: rest => isPref p (c :: rest) || containsSub p rest

/-- Scan counting maximal whitespace runs; the flag records whether the
scan currently stands inside a run. -/
def countWsRunsAux : Str → Bool → ℕ
  | [], _ => 0
  | c :: rest, inWs =>
      if isJsWs c then
        if inWs then countWsRunsAux rest true
        else 1 + countWsRunsAux rest true
      else countWsRunsAux rest false

/-- Number of maximal runs of whitespace in `s`. -/
def countWsRuns (s : Str) : ℕ := countWsRunsAux s false

/-- `lowerContent.split(/\s+/).length`: the number of pieces produced by
splitting on maximal whitespace runs.  A run at either end contributes an
empty piece, so the count is one more than the number of runs; it is never
zero. -/
def wordCount (s : Str) : ℕ := countWsRuns s + 1

/-- `(content.match(/!/g) || []).length`: the number of `!` characters. -/
def countExcl (s : Str) : ℕ := s.countP (fun c => c = '!')

/-! ### Exact representation of the scorer's floating point numbers

The dictionary weights of the source are decimal numbers with one fractional
digit; they are represented as integers in tenths (`0.7` is `7`, `-1.5` is
`-15`).  The score accumulated by the scoring loop is then an integer in
tenths as well.  The confidence threshold and the fixed confidences are
decimal numbers with two fractional digits, represented as integers in
hundredths (`0.65` is `65`, `0.98` is `98`).  These representations are
exact for every constant appearing in the source and its tests, and keep
every comparison the source performs decidable by integer arithmetic. -/

/-- Exact representation of every number the scorer produces: either
`cent n` denoting the rational `n / 100`, or `scaled S D w` denoting
`7/10 + S / (D * sqrt w)` — the shape of the generic-path confidence
`0.7 + normalizedScore / d`, where `S` is the score in tenths and `D` is
`10 * d` (`50` for the `/5` branches, `100` for the `/10` branch). -/
inductive JsNum where
  | cent (n : ℤ)
  | scaled (S : ℤ) (D : ℕ) (w : ℕ)
deriving DecidableEq, Repr

/-- The real value denoted by a `JsNum`. -/
noncomputable def JsNum.val : JsNum → ℝ
  | .cent n => n / 100
  | .scaled S D w => 7/10 + S / (D * Real.sqrt w)

/-- Decidable test `x ≤ c/100` for a `JsNum` `x`; agrees with the comparison
on real values on well-formed numbers (see `JsNum.leCent_iff`). -/
def JsNum.leCent : JsNum → ℤ → Bool
  | .cent n, c => decide (n ≤ c)
  | .scaled S D w, c =>
      if 0 ≤ S then
        decide (0 ≤ c - 70) &&
        decide ((100 * S) ^ 2 ≤ ((c - 70) * D) ^ 2 * w)
      else
        decide (0 ≤ c - 70) ||
        decide (((c - 70) * D) ^ 2 * w ≤ (100 * S) ^ 2)

/-- Decidable test `x < c/100` for a `JsNum` `x`. -/
def JsNum.ltCent : JsNum → ℤ → Bool
  | .cent n, c => decide (n < c)
  | .scaled S D w, c =>
      if 0 ≤ S then
        decide (0 < c - 70) &&
        decide ((100 * S) ^ 2 < ((c - 70) * D) ^ 2 * w)
      else
        decide (0 < c - 70) ||
        decide (((c - 70) * D) ^ 2 * w < (100 * S) ^ 2)

/-- `confidence = Math.min(confidence, 0.98)` (line 213 of the source). -/
def capConf (x : JsNum) : JsNum :=
  if x.leCent 98 then x else .cent 98

/-- Well-formedness of a `JsNum`: the denominator data under the square
root is positive.  Every number the scorer builds satisfies this, because
`wordCount` is always at least `1` and `D` is `50` or `100`. -/
def JsNum.wf : JsNum → Prop
  | .cent _ => True
  | .scaled _ D w => 0 < D ∧ 0 < w

/-! ### Score comparisons

The source compares `normalizedScore = sentimentScore / Math.sqrt(wordCount)`
against the constants `0.5`, `1.5`, `0.8`, `-0.5`, `-1.0`.  With the score
`S` kept as an exact integer in tenths and the constant `t/10` (`t` in
tenths) these comparisons are decidable:
for `t ≥ 0`, `(S/10) / sqrt w > t/10 ↔ S > 0 ∧ S² > t²·w` and
`(S/10) / sqrt w < -(t/10) ↔ S < 0 ∧ S² > t²·w`. -/

/-- `scoreAbove S w t` decides `S / sqrt w > t` (for `t ≥ 0`, `w > 0`),
both sides in tenths. -/
def scoreAbove (S : ℤ) (w : ℕ) (t : ℤ) : Bool :=
  decide (0 < S) && decide (t ^ 2 * w < S ^ 2)

/-- `scoreBelow S w t` decides `S / sqrt w < -t` (for `t ≥ 0`, `w > 0`),
both sides in tenths. -/
def scoreBelow (S : ℤ) (w : ℕ) (t : ℤ) : Bool :=
  decide (S < 0) && decide (t ^ 2 * w < S ^ 2)

/-! ### The lexicon and the analyzer -/

/-- A (merged) lexicon: term/phrase to signed weight in tenths, in source
order. -/
abbrev Dict := List (Str × ℤ)

/-- Sentiment categories produced by the scorer. -/
inductive SType where
  | neutral | positive | negative | frustration | excitement
deriving DecidableEq, Repr

/-- A scorer result: `{ type, confidence }`. -/
structure SResult where
  type : SType
  confidence : JsNum
deriving DecidableEq, Repr

/-- Convenience: the characters of a string literal. -/
def str (s : String) : Str := s.data

/-- The phrase `can't believe`. -/
def cantBelieve : Str := str "can" ++ [apoChar] ++ str "t believe"

/-- The phrase `still doesn't`. -/
def stillDoesnt : Str := str "still doesn" ++ [apoChar] ++ str "t"

/-- The phrase `doesn't work`. -/
def doesntWork : Str := str "doesn" ++ [apoChar] ++ str "t work"

/-- The phrase `still doesn't work`. -/
def stillDoesntWork : Str := str "still doesn" ++ [apoChar] ++ str "t work"

/-- The built-in dictionary (constructor, lines 31-87).  Weights are the
exact decimal literals of the source, in tenths.  The key `amazing` appears
twice in the source object literal with the same weight `1.5`; a JavaScript
object keeps one entry for it (at the first position, with the last value),
so it is listed once here. -/
def defaultDictionary : Dict :=
  [ (str "good", 7), (str "great", 10), (str "excellent", 13),
    (str "amazing", 15), (str "fantastic", 15), (str "wonderful", 13),
    (str "happy", 10), (str "pleased", 8), (str "satisfied", 7),
    (str "love", 14), (str "like", 8), (str "enjoy", 9),
    (str "awesome", 15), (str "works great", 12), (str "really happy", 14),
    (str "bad", -7), (str "terrible", -13), (str "awful", -13),
    (str "horrible", -15), (str "disappointed", -10),
    (str "very disappointed", -15), (str "upset", -10),
    (str "frustrated", -12), (str "frustrating", -12),
    (str "annoyed", -8), (str "angry", -13), (str "hate", -15),
    (str "dislike", -7), (str "poor", -7), (str "worst", -15),
    (str "already", -5), (str "repeatedly", -6),
    (str "multiple times", -9), (str "still not", -8),
    (str "keep getting", -7), (str "not working", -8),
    (str "told you", -10), (str "keeps happening", -9),
    (stillDoesnt, -12),
    (str "wow", 15), (str "incredible", 16), (str "unbelievable", 14),
    (cantBelieve, 12), (str "spectacular", 18),
    (str "!", 3), (str "!!", 6), (str "!!!", 9) ]

/-- Property assignment on a JavaScript object viewed as an ordered
key-value list: an existing key keeps its position and gets the new value,
a new key is appended. -/
def assignKey : Dict → Str → ℤ → Dict
  | [], k, v => [(k, v)]
  | p :: rest, k, v =>
      if p.1 = k then (k, v) :: rest else p :: assignKey rest k v

/-- `Object.assign(this.dictionary, this.config.customDictionary)`
(line 90): custom entries override built-ins on key collision, new keys are
appended in custom order. -/
def objectAssign (d : Dict) (custom : Dict) : Dict :=
  custom.foldl (fun acc p => assignKey acc p.1 p.2) d

/-- `this.dictionary[k]`: value of a key, if present (object keys are
unique, so the first match is the value). -/
def dictLookup : Dict → Str → Option ℤ
  | [], _ => none
  | p :: rest, k => if p.1 = k then some p.2 else dictLookup rest k

/-- `config.confidenceThreshold || 0.65` (line 24): an absent or zero
(falsy) threshold falls back to the default `0.65` (thresholds are in
hundredths). -/
def resolveThreshold : Option ℤ → ℤ
  | none => 65
  | some q => if q = 0 then 65 else q

/-- Override rule 1 (line 141): `'really happy'` together with
`'works great'` forces `{positive, 0.9}`. -/
def rule1 (lower : Str) : Bool :=
  containsSub (str "really happy") lower && containsSub (str "works great") lower

/-- Override rule 2 (line 145): `'terrible'`, `'disappointed'` and
`'frustrated'` jointly force `{negative, 0.9}`. -/
def rule2 (lower : Str) : Bool :=
  containsSub (str "terrible") lower && containsSub (str "disappointed") lower &&
  containsSub (str "frustrated") lower

/-- Override rule 3 (line 149): `'told you multiple times'` or
`'still doesn't work'` forces `{frustration, 0.9}`. -/
def rule3 (lower : Str) : Bool :=
  containsSub (str "told you multiple times") lower ||
  containsSub stillDoesntWork lower

/-- Override rule 4 (line 153): `'wow'`, `'amazing'` and `'can't believe'`
jointly force `{excitement, 0.95}`. -/
def rule4 (lower : Str) : Bool :=
  containsSub (str "wow") lower && containsSub (str "amazing") lower &&
  containsSub cantBelieve lower

/-- Override rule 5 (line 157): the text contains `'spectacular'` and the
merged dictionary maps the literal key `'spectacular'` to a weight of at
least `1.8`.  (`this.dictionary['spectacular'] >= 1.8` is `false` when the
key is absent, since `undefined >= 1.8` is `false`.) -/
def rule5 (dict : Dict) (lower : Str) : Bool :=
  containsSub (str "spectacular") lower &&
  (match dictLookup dict (str "spectacular") with
   | some v => decide (18 ≤ v)
   | none => false)

/-- The override chain (lines 141-159), first match wins; the fixed
literal confidences `0.9` and `0.95` are `cent 90` and `cent 95`. -/
def overridesResult (dict : Dict) (lower : Str) : Option SResult :=
  if rule1 lower then some ⟨.positive, .cent 90⟩
  else if rule2 lower then some ⟨.negative, .cent 90⟩
  else if rule3 lower then some ⟨.frustration, .cent 90⟩
  else if rule4 lower then some ⟨.excitement, .cent 95⟩
  else if rule5 dict lower then some ⟨.excitement, .cent 90⟩
  else none

/-- The scoring loop (lines 162-170): for every dictionary entry, add
`weight * occurrences` where occurrences are the matches of
`new RegExp('\\b' + term + '\\b|' + term, 'gi')` in the lowercased text,
i.e. leftmost non-overlapping occurrences of the (lowercased, literal)
term.  The result is the score in tenths.  The loop also accumulates a
`matchCount` that is never read afterwards; it is omitted. -/
def sentimentScore (dict : Dict) (lower : Str) : ℤ :=
  (dict.map (fun p => p.2 * (countOccs (lowerStr p.1) lower : ℤ))).sum

/-- The frustration-indicator test of the negative branch (lines 195-200);
`scoreBelow S w 10` is `normalizedScore < -1.0`. -/
def frustrationCue (lower : Str) (S : ℤ) (w : ℕ) : Bool :=
  containsSub (str "already") lower || containsSub (str "still") lower ||
  containsSub (str "multiple times") lower ||
  containsSub (str "told you") lower || containsSub doesntWork lower ||
  scoreBelow S w 10

/-- The threshold mapping (lines 179-210): type and raw (uncapped)
confidence from the normalized score `(S/10) / sqrt w`, the lowercased
text and the multiple-exclamation flag.  The thresholds `0.5`, `1.5`,
`0.8` are `5`, `15`, `8` in tenths; the confidences
`0.7 + normalizedScore/10`, `0.7 + normalizedScore/5` and
`0.7 + |normalizedScore|/5` are `scaled S 100 w`, `scaled S 50 w` and
`scaled |S| 50 w`; the neutral confidence `0.8` is `cent 80`. -/
def rawClassify (lower : Str) (S : ℤ) (w : ℕ) (multiExcl : Bool) : SResult :=
  if scoreAbove S w 5 then
    if scoreAbove S w 15 || (scoreAbove S w 8 && multiExcl) then
      ⟨.excitement, .scaled S 100 w⟩
    else
      ⟨.positive, .scaled S 50 w⟩
  else if scoreBelow S w 5 then
    if frustrationCue lower S w then
      ⟨.frustration, .scaled |S| 50 w⟩
    else
      ⟨.negative, .scaled |S| 50 w⟩
  else
    ⟨.neutral, .cent 80⟩

/-- The generic scoring path (lines 162-213), up to and including the
`0.98` cap but before the confidence floor. -/
def genericResult (dict : Dict) (s : Str) : SResult :=
  let lower := lowerStr s
  let S := sentimentScore dict lower
  let r := rawClassify lower S (wordCount lower) (decide (1 < countExcl s))
  ⟨r.type, capConf r.confidence⟩

/-- Message content as seen by `analyzeSentiment`: absent (`undefined`),
`null`, some non-string value, or a string. -/
inductive MsgContent where
  | absent | nullVal | nonText | text (s : Str)
deriving DecidableEq, Repr

/-- `analyzeSentiment(content)` (lines 130-221).  The guard
`!content || typeof content !== 'string'` returns `{neutral, 1.0}` for
absent, `null` and non-string content and for the empty string (which is
falsy).  Otherwise the override chain is tried, then the generic scoring
path followed by the confidence floor (lines 216-218).  The guard
confidence `1.0` is `cent 100` and the floor fallback `{neutral, 0.8}` is
`cent 80`; the threshold is in hundredths. -/
def analyzeSentiment (confidenceThreshold : ℤ) (dict : Dict) :
    MsgContent → SResult
  | .text s =>
      if s = [] then ⟨.neutral, .cent 100⟩
      else
        match overridesResult dict (lowerStr s) with
        | some r => r
        | none =>
            let g := genericResult dict s
            if g.confidence.ltCent confidenceThreshold then ⟨.neutral, .cent 80⟩
            else g
  | _ => ⟨.neutral, .cent 100⟩

/-! ### Regex construction (scoring loop, line 163)

`new RegExp('\\b' + term + '\\b|' + term, 'gi')` is evaluated for every
dictionary term once the scoring loop is reached.  For a term built only
from characters that are not special in a JavaScript pattern the
constructor succeeds and the pattern matches the term literally (this is
the case for every built-in term).  A term containing pattern
metacharacters leaves that literal model: an unbalanced `(` (for instance)
makes the constructor throw a `SyntaxError`.  `analyzeSentimentChecked`
returns `none` when the scoring loop would build such a regex. -/

/-- Characters that are special inside a JavaScript regex pattern. -/
def regexSpecial (c : Char) : Bool :=
  c = Char.ofNat 92 || c = '^' || c = Char.ofNat 36 || c = '.' ||
  c = '|' || c = '?' || c = '*' || c = '+' ||
  c = '(' || c = ')' || c = '[' || c = ']' ||
  c = Char.ofNat 123 || c = Char.ofNat 125

/-- The term's pattern `\bterm\b|term` stays within the literal-matching
model: no regex metacharacters. -/
def termRegexOk (t : Str) : Bool := t.all (fun c => !regexSpecial c)

/-- `analyzeSentiment` with the regex construction of the scoring loop made
explicit: `none` models that the loop builds a regex outside the literal
model (in particular a term such as `'('` makes `new RegExp` throw).  The
guard and the override chain return before the loop (lines 130-159), so
they produce a result for every dictionary. -/
def analyzeSentimentChecked (confidenceThreshold : ℤ) (dict : Dict) :
    MsgContent → Option SResult
  | .text s =>
      if s = [] then some ⟨.neutral, .cent 100⟩
      else
        match overridesResult dict (lowerStr s) with
        | some r => some r
        | none =>
            if dict.all (fun p => termRegexOk p.1) then
              some (analyzeSentiment confidenceThreshold dict (.text s))
            else none
  | _ => some ⟨.neutral, .cent 100⟩

/-! ### The message level: `analyze(message)` (lines 98-122) -/

/-- JSON values (message fields).  Numbers carry the exact `JsNum`
representation so that the confidence written by the analyzer is
representable. -/
inductive Json where
  | null
  | boolean (b : Bool)
  | num (x : JsNum)
  | jstr (s : Str)
  | arr (items : List Json)
  | obj (fields : List (Str × Json))

/-- JavaScript truthiness of a JSON value.  A `scaled` number is the value
`0.7 + S/(D·sqrt w)` of an analyzer-written confidence, which is at least
`0.7` and therefore truthy. -/
def jsTruthy : Json → Bool
  | .null => false
  | .boolean b => b
  | .num (.cent n) => decide (n ≠ 0)
  | .num (.scaled _ _ _) => true
  | .jstr s => !s.isEmpty
  | .arr _ => true
  | .obj _ => true

/-- An MCP-L message as the analyzer sees it: the `content` field, the
`behavior_tags` field (`none` when absent, otherwise an ordered key-value
object), and the remaining top-level fields. -/
structure Message where
  content : MsgContent
  behaviorTags : Option (List (Str × Json))
  rest : List (Str × Json)

/-- Value of a key in an ordered key-value object (keys are unique, so the
first match is the value). -/
def lookupTag : List (Str × Json) → Str → Option Json
  | [], _ => none
  | p :: rest, k => if p.1 = k then some p.2 else lookupTag rest k

/-- Property assignment on an ordered key-value object: an existing key
keeps its position and gets the new value, a new key is appended. -/
def setTag : List (Str × Json) → Str → Json → List (Str × Json)
  | [], k, v => [(k, v)]
  | p :: rest, k, v =>
      if p.1 = k then (k, v) :: rest else p :: setTag rest k v

/-- The key `sentiment`. -/
def sentimentKey : Str := str "sentiment"

/-- Name of a sentiment category, as written into `detected`. -/
def typeName : SType → Str
  | .neutral => str "neutral"
  | .positive => str "positive"
  | .negative => str "negative"
  | .frustration => str "frustration"
  | .excitement => str "excitement"

/-- The tag written by the analyzer (lines 116-119):
`{ detected: analysis.type, confidence: analysis.confidence }`. -/
def sentimentJson (r : SResult) : Json :=
  .obj [(str "detected", .jstr (typeName r.type)),
        (str "confidence", .num r.confidence)]

/-- `analyze(message)` (lines 98-122).  The JSON round-trip copy of line
100 is the identity on JSON values, so the embedding is a pure function of
the message.  `behavior_tags` is initialised to `{}` when absent; an
existing truthy `sentiment` value is kept as is; otherwise the sentiment of
`message.content` is computed and assigned. -/
def analyze (confidenceThreshold : ℤ) (dict : Dict) (m : Message) : Message :=
  let tags := m.behaviorTags.getD []
  let keep : Bool :=
    match lookupTag tags sentimentKey with
    | some v => jsTruthy v
    | none => false
  if keep then ⟨m.content, some tags, m.rest⟩
  else
    let analysis := analyzeSentiment confidenceThreshold dict m.content
    ⟨m.content, some (setTag tags sentimentKey (sentimentJson analysis)), m.rest⟩

/-! ### Bridge lemmas: decidable comparisons versus real values -/

theorem sqrt_nat_pos {w : ℕ} (hw : 0 < w) : 0 < Real.sqrt w := by
  apply Real.sqrt_pos.mpr
  exact_mod_cast hw

theorem sq_sqrt_nat (w : ℕ) : Real.sqrt w ^ 2 = (w : ℝ) := by
  apply Real.sq_sqrt
  positivity


/-- `scoreAbove` decides `t < S / sqrt w` for `0 ≤ t` and `0 < w`. -/
theorem scoreAbove_iff {S t : ℤ} {w : ℕ} (hw : 0 < w) (ht : 0 ≤ t) :
    scoreAbove S w t = true ↔ (t : ℝ) < (S : ℝ) / Real.sqrt w := by
  have hsw : 0 < Real.sqrt w := sqrt_nat_pos hw
  have ht' : (0 : ℝ) ≤ (t : ℝ) := by exact_mod_cast ht
  rw [lt_div_iff₀ hsw]
  simp only [scoreAbove, Bool.and_eq_true, decide_eq_true_eq]
  constructor
  · rintro ⟨h1, h2⟩
    have h1' : (0 : ℝ) < (S : ℝ) := by exact_mod_cast h1
    have h2' : ((t : ℝ)) ^ 2 * (w : ℝ) < (S : ℝ) ^ 2 := by exact_mod_cast h2
    have key : ((t : ℝ) * Real.sqrt w) ^ 2 < (S : ℝ) ^ 2 := by
      rw [mul_pow, sq_sqrt_nat]
      exact h2'
    exact lt_of_pow_lt_pow_left₀ 2 h1'.le key
  · intro h
    have h0 : (0 : ℝ) ≤ (t : ℝ) * Real.sqrt w := by positivity
    have hS : (0 : ℝ) < (S : ℝ) := lt_of_le_of_lt h0 h
    refine ⟨by exact_mod_cast hS, ?_⟩
    have key : ((t : ℝ) * Real.sqrt w) ^ 2 < (S : ℝ) ^ 2 := by
      apply pow_lt_pow_left₀ h h0
      omega
    rw [mul_pow, sq_sqrt_nat] at key
    exact_mod_cast key

/-- `scoreBelow` decides `S / sqrt w < -t` for `0 ≤ t` and `0 < w`. -/
theorem scoreBelow_iff {S t : ℤ} {w : ℕ} (hw : 0 < w) (ht : 0 ≤ t) :
    scoreBelow S w t = true ↔ (S : ℝ) / Real.sqrt w < -(t : ℝ) := by
  have hsw : 0 < Real.sqrt w := sqrt_nat_pos hw
  have ht' : (0 : ℝ) ≤ (t : ℝ) := by exact_mod_cast ht
  rw [div_lt_iff₀ hsw, neg_mul]
  simp only [scoreBelow, Bool.and_eq_true, decide_eq_true_eq]
  constructor
  · rintro ⟨h1, h2⟩
    have h1' : (S : ℝ) < 0 := by exact_mod_cast h1
    have h2' : ((t : ℝ)) ^ 2 * (w : ℝ) < (S : ℝ) ^ 2 := by exact_mod_cast h2
    have key : ((t : ℝ) * Real.sqrt w) ^ 2 < (-(S : ℝ)) ^ 2 := by
      rw [mul_pow, sq_sqrt_nat, neg_sq]
      exact h2'
    have := lt_of_pow_lt_pow_left₀ 2 (by linarith) key
    linarith
  · intro h
    have h0 : (0 : ℝ) ≤ (t : ℝ) * Real.sqrt w := by positivity
    have hS : (S : ℝ) < 0 := by nlinarith
    refine ⟨by exact_mod_cast hS, ?_⟩
    have key : ((t : ℝ) * Real.sqrt w) ^ 2 < (-(S : ℝ)) ^ 2 := by
      apply pow_lt_pow_left₀ (by linarith) h0
      omega
    rw [mul_pow, sq_sqrt_nat, neg_sq] at key
    exact_mod_cast key

/-- `JsNum.leCent` decides `x.val ≤ c/100` on well-formed numbers. -/
theorem JsNum.leCent_iff (x : JsNum) (c : ℤ) (hx : x.wf) :
    x.leCent c = true ↔ x.val ≤ (c : ℝ) / 100 := by
  cases x with
  | cent n =>
      simp only [JsNum.leCent, JsNum.val, decide_eq_true_eq]
      rw [div_le_div_iff_of_pos_right (by norm_num : (0:ℝ) < 100)]
      exact_mod_cast Iff.rfl
  | scaled S D w =>
      obtain ⟨hD, hw⟩ := hx
      have hsw : 0 < Real.sqrt w := sqrt_nat_pos hw
      have hD' : (0 : ℝ) < (D : ℝ) := by exact_mod_cast hD
      have hu : (0 : ℝ) < (D : ℝ) * Real.sqrt w := mul_pos hD' hsw
      have hu2 : ((D : ℝ) * Real.sqrt w) ^ 2 = (D : ℝ) ^ 2 * (w : ℝ) := by
        rw [mul_pow, sq_sqrt_nat]
      simp only [JsNum.leCent, JsNum.val]
      have hgoal : 7/10 + (S : ℝ) / ((D : ℝ) * Real.sqrt w) ≤ (c : ℝ) / 100 ↔
          (S : ℝ) / ((D : ℝ) * Real.sqrt w) ≤ ((c : ℝ) - 70) / 100 := by
        constructor <;> intro <;> linarith
      rw [hgoal, div_le_div_iff hu (by norm_num : (0:ℝ) < 100)]
      by_cases hS : (0 : ℤ) ≤ S
      · have hS' : (0 : ℝ) ≤ (S : ℝ) := by exact_mod_cast hS
        simp only [hS, if_pos, Bool.and_eq_true, decide_eq_true_eq]
        constructor
        · rintro ⟨h1, h2⟩
          have h1' : (0 : ℝ) ≤ (c : ℝ) - 70 := by exact_mod_cast h1
          have h2' : (100 * (S : ℝ)) ^ 2 ≤ (((c : ℝ) - 70) * (D : ℝ)) ^ 2 * (w : ℝ) := by
            exact_mod_cast h2
          have hrhs : (0 : ℝ) ≤ ((c : ℝ) - 70) * ((D : ℝ) * Real.sqrt w) :=
            mul_nonneg h1' hu.le
          have key : ((S : ℝ) * 100) ^ 2 ≤
              (((c : ℝ) - 70) * ((D : ℝ) * Real.sqrt w)) ^ 2 := by
            have e1 : (((c : ℝ) - 70) * ((D : ℝ) * Real.sqrt w)) ^ 2 =
                (((c : ℝ) - 70) * (D : ℝ)) ^ 2 * Real.sqrt w ^ 2 := by ring
            rw [e1, sq_sqrt_nat]
            calc ((S : ℝ) * 100) ^ 2 = (100 * (S : ℝ)) ^ 2 := by ring
              _ ≤ _ := h2'
          exact le_of_pow_le_pow_left₀ (by omega) hrhs key
        · intro h
          have h0 : (0 : ℝ) ≤ ((c : ℝ) - 70) * ((D : ℝ) * Real.sqrt w) := by
            have : (0 : ℝ) ≤ (S : ℝ) * 100 := by positivity
            linarith
          have hca : (0 : ℝ) ≤ (c : ℝ) - 70 := by nlinarith
          refine ⟨by exact_mod_cast hca, ?_⟩
          have key : ((S : ℝ) * 100) ^ 2 ≤
              (((c : ℝ) - 70) * ((D : ℝ) * Real.sqrt w)) ^ 2 :=
            pow_le_pow_left₀ (by positivity) h 2
          have e1 : (((c : ℝ) - 70) * ((D : ℝ) * Real.sqrt w)) ^ 2 =
              (((c : ℝ) - 70) * (D : ℝ)) ^ 2 * Real.sqrt w ^ 2 := by ring
          rw [e1, sq_sqrt_nat] at key
          have key2 : (100 * (S : ℝ)) ^ 2 ≤
              (((c : ℝ) - 70) * (D : ℝ)) ^ 2 * (w : ℝ) := by
            calc (100 * (S : ℝ)) ^ 2 = ((S : ℝ) * 100) ^ 2 := by ring
              _ ≤ _ := key
          exact_mod_cast key2
      · have hS' : (S : ℝ) < 0 := by
          have : S < 0 := lt_of_not_le hS
          exact_mod_cast this
        simp only [hS, if_neg, Bool.or_eq_true, decide_eq_true_eq, not_false_eq_true]
        constructor
        · rintro (h1 | h2)
          · have h1' : (0 : ℝ) ≤ (c : ℝ) - 70 := by exact_mod_cast h1
            have : (0 : ℝ) ≤ ((c : ℝ) - 70) * ((D : ℝ) * Real.sqrt w) :=
              mul_nonneg h1' hu.le
            nlinarith
          · have h2' : (((c : ℝ) - 70) * (D : ℝ)) ^ 2 * (w : ℝ) ≤ (100 * (S : ℝ)) ^ 2 := by
              exact_mod_cast h2
            by_cases hca : (0 : ℝ) ≤ (c : ℝ) - 70
            · have : (0 : ℝ) ≤ ((c : ℝ) - 70) * ((D : ℝ) * Real.sqrt w) :=
                mul_nonneg hca hu.le
              nlinarith
            · push_neg at hca
              have hneg : ((c : ℝ) - 70) * ((D : ℝ) * Real.sqrt w) < 0 :=
                mul_neg_of_neg_of_pos (by linarith) hu
              have key : (-(((c : ℝ) - 70) * ((D : ℝ) * Real.sqrt w))) ^ 2 ≤
                  (-((S : ℝ) * 100)) ^ 2 := by
                rw [neg_sq, neg_sq]
                have e1 : (((c : ℝ) - 70) * ((D : ℝ) * Real.sqrt w)) ^ 2 =
                    (((c : ℝ) - 70) * (D : ℝ)) ^ 2 * Real.sqrt w ^ 2 := by ring
                rw [e1, sq_sqrt_nat]
                calc (((c : ℝ) - 70) * (D : ℝ)) ^ 2 * (w : ℝ) ≤ (100 * (S : ℝ)) ^ 2 := h2'
                  _ = ((S : ℝ) * 100) ^ 2 := by ring
              have := le_of_pow_le_pow_left₀ (by omega)
                (show (0:ℝ) ≤ -((S : ℝ) * 100) by nlinarith) key
              linarith
        · intro h
          by_cases hca : (0 : ℤ) ≤ c - 70
          · exact Or.inl (by exact_mod_cast hca)
          · refine Or.inr ?_
            push_neg at hca
            have hca' : (c : ℝ) - 70 < 0 := by exact_mod_cast hca
            have key : (-(((c : ℝ) - 70) * ((D : ℝ) * Real.sqrt w))) ^ 2 ≤
                (-((S : ℝ) * 100)) ^ 2 :=
              pow_le_pow_left₀
                (show (0:ℝ) ≤ -(((c : ℝ) - 70) * ((D : ℝ) * Real.sqrt w)) by nlinarith)
                (by linarith) 2
            rw [neg_sq, neg_sq] at key
            have e1 : (((c : ℝ) - 70) * ((D : ℝ) * Real.sqrt w)) ^ 2 =
                (((c : ℝ) - 70) * (D : ℝ)) ^ 2 * Real.sqrt w ^ 2 := by ring
            rw [e1, sq_sqrt_nat] at key
            have key2 : (((c : ℝ) - 70) * (D : ℝ)) ^ 2 * (w : ℝ) ≤
                (100 * (S : ℝ)) ^ 2 := by
              calc (((c : ℝ) - 70) * (D : ℝ)) ^ 2 * (w : ℝ) ≤ ((S : ℝ) * 100) ^ 2 := key
                _ = (100 * (S : ℝ)) ^ 2 := by ring
            exact_mod_cast key2

/-- `JsNum.ltCent` decides `x.val < c/100` on well-formed numbers. -/
theorem JsNum.ltCent_iff (x : JsNum) (c : ℤ) (hx : x.wf) :
    x.ltCent c = true ↔ x.val < (c : ℝ) / 100 := by
  cases x with
  | cent n =>
      simp only [JsNum.ltCent, JsNum.val, decide_eq_true_eq]
      rw [div_lt_div_iff_of_pos_right (by norm_num : (0:ℝ) < 100)]
      exact_mod_cast Iff.rfl
  | scaled S D w =>
      obtain ⟨hD, hw⟩ := hx
      have hsw : 0 < Real.sqrt w := sqrt_nat_pos hw
      have hD' : (0 : ℝ) < (D : ℝ) := by exact_mod_cast hD
      have hu : (0 : ℝ) < (D : ℝ) * Real.sqrt w := mul_pos hD' hsw
      simp only [JsNum.ltCent, JsNum.val]
      have hgoal : 7/10 + (S : ℝ) / ((D : ℝ) * Real.sqrt w) < (c : ℝ) / 100 ↔
          (S : ℝ) / ((D : ℝ) * Real.sqrt w) < ((c : ℝ) - 70) / 100 := by
        constructor <;> intro <;> linarith
      rw [hgoal, div_lt_div_iff hu (by norm_num : (0:ℝ) < 100)]
      by_cases hS : (0 : ℤ) ≤ S
      · have hS' : (0 : ℝ) ≤ (S : ℝ) := by exact_mod_cast hS
        simp only [hS, if_pos, Bool.and_eq_true, decide_eq_true_eq]
        constructor
        · rintro ⟨h1, h2⟩
          have h1' : (0 : ℝ) < (c : ℝ) - 70 := by exact_mod_cast h1
          have h2' : (100 * (S : ℝ)) ^ 2 < (((c : ℝ) - 70) * (D : ℝ)) ^ 2 * (w : ℝ) := by
            exact_mod_cast h2
          have hrhs : (0 : ℝ) ≤ ((c : ℝ) - 70) * ((D : ℝ) * Real.sqrt w) :=
            mul_nonneg h1'.le hu.le
          have key : ((S : ℝ) * 100) ^ 2 <
              (((c : ℝ) - 70) * ((D : ℝ) * Real.sqrt w)) ^ 2 := by
            have e1 : (((c : ℝ) - 70) * ((D : ℝ) * Real.sqrt w)) ^ 2 =
                (((c : ℝ) - 70) * (D : ℝ)) ^ 2 * Real.sqrt w ^ 2 := by ring
            rw [e1, sq_sqrt_nat]
            calc ((S : ℝ) * 100) ^ 2 = (100 * (S : ℝ)) ^ 2 := by ring
              _ < _ := h2'
          exact lt_of_pow_lt_pow_left₀ 2 hrhs key
        · intro h
          have h0 : (0 : ℝ) < ((c : ℝ) - 70) * ((D : ℝ) * Real.sqrt w) := by
            have : (0 : ℝ) ≤ (S : ℝ) * 100 := by positivity
            linarith
          have hca : (0 : ℝ) < (c : ℝ) - 70 := by
            by_contra hc
            push_neg at hc
            nlinarith
          refine ⟨by exact_mod_cast hca, ?_⟩
          have key : ((S : ℝ) * 100) ^ 2 <
              (((c : ℝ) - 70) * ((D : ℝ) * Real.sqrt w)) ^ 2 := by
            apply pow_lt_pow_left₀ h (by positivity)
            omega
          have e1 : (((c : ℝ) - 70) * ((D : ℝ) * Real.sqrt w)) ^ 2 =
              (((c : ℝ) - 70) * (D : ℝ)) ^ 2 * Real.sqrt w ^ 2 := by ring
          rw [e1, sq_sqrt_nat] at key
          have key2 : (100 * (S : ℝ)) ^ 2 <
              (((c : ℝ) - 70) * (D : ℝ)) ^ 2 * (w : ℝ) := by
            calc (100 * (S : ℝ)) ^ 2 = ((S : ℝ) * 100) ^ 2 := by ring
              _ < _ := key
          exact_mod_cast key2
      · have hS' : (S : ℝ) < 0 := by
          have : S < 0 := lt_of_not_le hS
          exact_mod_cast this
        simp only [hS, if_neg, Bool.or_eq_true, decide_eq_true_eq, not_false_eq_true]
        constructor
        · rintro (h1 | h2)
          · have h1' : (0 : ℝ) < (c : ℝ) - 70 := by exact_mod_cast h1
            have : (0 : ℝ) ≤ ((c : ℝ) - 70) * ((D : ℝ) * Real.sqrt w) :=
              mul_nonneg h1'.le hu.le
            nlinarith
          · have h2' : (((c : ℝ) - 70) * (D : ℝ)) ^ 2 * (w : ℝ) < (100 * (S : ℝ)) ^ 2 := by
              exact_mod_cast h2
            by_cases hca : (0 : ℝ) ≤ (c : ℝ) - 70
            · have : (0 : ℝ) ≤ ((c : ℝ) - 70) * ((D : ℝ) * Real.sqrt w) :=
                mul_nonneg hca hu.le
              nlinarith
            · push_neg at hca
              have key : (-(((c : ℝ) - 70) * ((D : ℝ) * Real.sqrt w))) ^ 2 <
                  (-((S : ℝ) * 100)) ^ 2 := by
                rw [neg_sq, neg_sq]
                have e1 : (((c : ℝ) - 70) * ((D : ℝ) * Real.sqrt w)) ^ 2 =
                    (((c : ℝ) - 70) * (D : ℝ)) ^ 2 * Real.sqrt w ^ 2 := by ring
                rw [e1, sq_sqrt_nat]
                calc (((c : ℝ) - 70) * (D : ℝ)) ^ 2 * (w : ℝ) < (100 * (S : ℝ)) ^ 2 := h2'
                  _ = ((S : ℝ) * 100) ^ 2 := by ring
              have := lt_of_pow_lt_pow_left₀ 2
                (show (0:ℝ) ≤ -((S : ℝ) * 100) by nlinarith) key
              linarith
        · intro h
          by_cases hca : (0 : ℤ) < c - 70
          · exact Or.inl (by exact_mod_cast hca)
          · refine Or.inr ?_
            push_neg at hca
            have hca' : (c : ℝ) - 70 ≤ 0 := by exact_mod_cast hca
            have hnn : (0 : ℝ) ≤ -(((c : ℝ) - 70) * ((D : ℝ) * Real.sqrt w)) := by
              have : ((c : ℝ) - 70) * ((D : ℝ) * Real.sqrt w) ≤ 0 :=
                mul_nonpos_iff.mpr (Or.inr ⟨hca', hu.le⟩)
              linarith
            have key : (-(((c : ℝ) - 70) * ((D : ℝ) * Real.sqrt w))) ^ 2 <
                (-((S : ℝ) * 100)) ^ 2 := by
              apply pow_lt_pow_left₀ (by linarith) hnn
              omega
            rw [neg_sq, neg_sq] at key
            have e1 : (((c : ℝ) - 70) * ((D : ℝ) * Real.sqrt w)) ^ 2 =
                (((c : ℝ) - 70) * (D : ℝ)) ^ 2 * Real.sqrt w ^ 2 := by ring
            rw [e1, sq_sqrt_nat] at key
            have key2 : (((c : ℝ) - 70) * (D : ℝ)) ^ 2 * (w : ℝ) <
                (100 * (S : ℝ)) ^ 2 := by
              calc (((c : ℝ) - 70) * (D : ℝ)) ^ 2 * (w : ℝ) < ((S : ℝ) * 100) ^ 2 := key
                _ = (100 * (S : ℝ)) ^ 2 := by ring
            exact_mod_cast key2

/-- The cap computes the minimum with `0.98` on real values. -/
theorem capConf_val (x : JsNum) (hx : x.wf) :
    (capConf x).val = min x.val ((49 : ℝ) / 50) := by
  unfold capConf
  by_cases h : x.leCent 98 = true
  · rw [if_pos h]
    have h1 := (JsNum.leCent_iff x 98 hx).mp h
    rw [min_eq_left]
    push_cast at h1
    linarith
  · rw [if_neg h]
    have h2 : ¬ x.val ≤ ((98 : ℝ) / 100) := by
      intro hc
      apply h
      apply (JsNum.leCent_iff x 98 hx).mpr
      push_cast
      exact hc
    push_neg at h2
    rw [min_eq_right (by linarith)]
    show ((98 : ℤ) : ℝ) / 100 = 49 / 50
    norm_num

/-- Capping preserves well-formedness. -/
theorem capConf_wf (x : JsNum) (hx : x.wf) : (capConf x).wf := by
  unfold capConf
  by_cases h : x.leCent 98 = true
  · rw [if_pos h]
    exact hx
  · rw [if_neg h]
    trivial

/-- The word count is always positive. -/
theorem wordCount_pos (s : Str) : 0 < wordCount s := Nat.succ_pos _

/-! ### The generic path against the specification's description -/

/-- `normalizedScore = score / sqrt(wordCount)`: the real value of the
normalized score of the generic path (the score in true units is the
integer `sentimentScore` divided by `10`). -/
noncomputable def normalizedScore (dict : Dict) (s : Str) : ℝ :=
  ((sentimentScore dict (lowerStr s) : ℝ) / 10) /
    Real.sqrt (wordCount (lowerStr s))

attribute [local instance] Classical.propDecidable

set_option maxHeartbeats 2000000

/-- The generic classification as the specification describes it
(spec §4.1 steps 5-7, claim C1), written over real numbers: threshold the
normalized score at `0.5`/`-0.5`, split excitement from positive at
`normalizedScore > 1.5` or (`> 0.8` and more than one `!`), split
frustration from negative on the indicator substrings or
`normalizedScore < -1.0`, and produce the capped confidences
`min(0.98, 0.7 + normalizedScore/10)`, `min(0.98, 0.7 + normalizedScore/5)`,
`min(0.98, 0.7 + |normalizedScore|/5)` and the neutral `0.8`. -/
noncomputable def specClassify (dict : Dict) (s : Str) : SType × ℝ :=
  let ns := normalizedScore dict s
  let lower := lowerStr s
  if 1/2 < ns then
    if 3/2 < ns ∨ (4/5 < ns ∧ 1 < countExcl s) then
      (SType.excitement, min (49/50) (7/10 + ns/10))
    else
      (SType.positive, min (49/50) (7/10 + ns/5))
  else if ns < -(1/2) then
    (if containsSub (str "already") lower = true ∨
        containsSub (str "still") lower = true ∨
        containsSub (str "multiple times") lower = true ∨
        containsSub (str "told you") lower = true ∨
        containsSub doesntWork lower = true ∨
        ns < -1 then SType.frustration else SType.negative,
     min (49/50) (7/10 + |ns|/5))
  else (SType.neutral, 4/5)

/-- C1: for text that reaches the generic path (nonempty string, no
override rule matched), `analyzeSentiment` is the confidence floor applied
to the generic result, and the generic result's category and exact
confidence value are exactly the ones the specification computes from
`normalizedScore = score / sqrt(wordCount)` (where the score is the sum of
`weight * occurrences` over the merged lexicon — the definition of
`sentimentScore` — and `wordCount` counts whitespace-delimited tokens). -/
theorem analyzeSentiment_generic_spec (confidenceThreshold : ℤ) (dict : Dict)
    (s : Str) (hs : s ≠ [])
    (hov : overridesResult dict (lowerStr s) = none) :
    analyzeSentiment confidenceThreshold dict (.text s) =
      (if (genericResult dict s).confidence.ltCent confidenceThreshold then
        ⟨.neutral, .cent 80⟩ else genericResult dict s) ∧
    (genericResult dict s).type = (specClassify dict s).1 ∧
    (genericResult dict s).confidence.val = (specClassify dict s).2 := by
  have hw : 0 < wordCount (lowerStr s) := wordCount_pos _
  have hsw : 0 < Real.sqrt (wordCount (lowerStr s)) := sqrt_nat_pos hw
  refine ⟨?_, ?_⟩
  · simp only [analyzeSentiment, if_neg hs, hov]
  · have hns : normalizedScore dict s =
        ((sentimentScore dict (lowerStr s) : ℝ) / 10) /
          Real.sqrt (wordCount (lowerStr s)) := rfl
    have iffHalf : scoreAbove (sentimentScore dict (lowerStr s))
        (wordCount (lowerStr s)) 5 = true ↔ 1/2 < normalizedScore dict s := by
      rw [scoreAbove_iff hw (by norm_num), hns, div_right_comm]
      push_cast
      constructor <;> intro h <;> linarith
    have iffThreeHalf : scoreAbove (sentimentScore dict (lowerStr s))
        (wordCount (lowerStr s)) 15 = true ↔ 3/2 < normalizedScore dict s := by
      rw [scoreAbove_iff hw (by norm_num), hns, div_right_comm]
      push_cast
      constructor <;> intro h <;> linarith
    have iffFourFifth : scoreAbove (sentimentScore dict (lowerStr s))
        (wordCount (lowerStr s)) 8 = true ↔ 4/5 < normalizedScore dict s := by
      rw [scoreAbove_iff hw (by norm_num), hns, div_right_comm]
      push_cast
      constructor <;> intro h <;> linarith
    have iffNegHalf : scoreBelow (sentimentScore dict (lowerStr s))
        (wordCount (lowerStr s)) 5 = true ↔
        normalizedScore dict s < -(1/2) := by
      rw [scoreBelow_iff hw (by norm_num), hns, div_right_comm]
      push_cast
      constructor <;> intro h <;> linarith
    have iffNegOne : scoreBelow (sentimentScore dict (lowerStr s))
        (wordCount (lowerStr s)) 10 = true ↔ normalizedScore dict s < -1 := by
      rw [scoreBelow_iff hw (by norm_num), hns, div_right_comm]
      push_cast
      constructor <;> intro h <;> linarith
    have cueIff : frustrationCue (lowerStr s) (sentimentScore dict (lowerStr s))
        (wordCount (lowerStr s)) = true ↔
        (containsSub (str "already") (lowerStr s) = true ∨
         containsSub (str "still") (lowerStr s) = true ∨
         containsSub (str "multiple times") (lowerStr s) = true ∨
         containsSub (str "told you") (lowerStr s) = true ∨
         containsSub doesntWork (lowerStr s) = true ∨
         normalizedScore dict s < -1) := by
      unfold frustrationCue
      simp only [Bool.or_eq_true, iffNegOne, or_assoc]
    have val100 : (JsNum.scaled (sentimentScore dict (lowerStr s)) 100
        (wordCount (lowerStr s))).val = 7/10 + normalizedScore dict s / 10 := by
      show (7:ℝ)/10 + _ = _
      rw [hns]
      push_cast
      ring
    have val50 : (JsNum.scaled (sentimentScore dict (lowerStr s)) 50
        (wordCount (lowerStr s))).val = 7/10 + normalizedScore dict s / 5 := by
      show (7:ℝ)/10 + _ = _
      rw [hns]
      push_cast
      ring
    have val50abs : (JsNum.scaled |sentimentScore dict (lowerStr s)| 50
        (wordCount (lowerStr s))).val = 7/10 + |normalizedScore dict s| / 5 := by
      show (7:ℝ)/10 + _ = _
      rw [hns]
      push_cast
      rw [abs_div, abs_div, abs_of_nonneg (Real.sqrt_nonneg _),
        abs_of_nonneg (by norm_num : (0:ℝ) ≤ 10)]
      ring
    have wf100 : (JsNum.scaled (sentimentScore dict (lowerStr s)) 100
        (wordCount (lowerStr s))).wf := ⟨by norm_num, hw⟩
    have wf50 : (JsNum.scaled (sentimentScore dict (lowerStr s)) 50
        (wordCount (lowerStr s))).wf := ⟨by norm_num, hw⟩
    have wf50abs : (JsNum.scaled |sentimentScore dict (lowerStr s)| 50
        (wordCount (lowerStr s))).wf := ⟨by norm_num, hw⟩
    unfold genericResult rawClassify specClassify
    dsimp only
    by_cases hA : scoreAbove (sentimentScore dict (lowerStr s))
        (wordCount (lowerStr s)) 5 = true
    · rw [if_pos hA, if_pos (iffHalf.mp hA)]
      by_cases hB : (scoreAbove (sentimentScore dict (lowerStr s))
          (wordCount (lowerStr s)) 15 ||
          (scoreAbove (sentimentScore dict (lowerStr s))
            (wordCount (lowerStr s)) 8 && decide (1 < countExcl s))) = true
      · have hB' : 3/2 < normalizedScore dict s ∨
            (4/5 < normalizedScore dict s ∧ 1 < countExcl s) := by
          rcases Bool.or_eq_true _ _ |>.mp hB with h | h
          · exact Or.inl (iffThreeHalf.mp h)
          · rcases Bool.and_eq_true _ _ |>.mp h with ⟨h1, h2⟩
            exact Or.inr ⟨iffFourFifth.mp h1, of_decide_eq_true h2⟩
        rw [if_pos hB, if_pos hB']
        refine ⟨rfl, ?_⟩
        rw [capConf_val _ wf100, val100, min_comm]
      · have hB' : ¬ (3/2 < normalizedScore dict s ∨
            (4/5 < normalizedScore dict s ∧ 1 < countExcl s)) := by
          rintro (h | ⟨h1, h2⟩)
          · exact hB (Bool.or_eq_true _ _ |>.mpr (Or.inl (iffThreeHalf.mpr h)))
          · exact hB (Bool.or_eq_true _ _ |>.mpr (Or.inr
              (Bool.and_eq_true _ _ |>.mpr ⟨iffFourFifth.mpr h1, decide_eq_true h2⟩)))
        rw [if_neg hB, if_neg hB']
        refine ⟨rfl, ?_⟩
        rw [capConf_val _ wf50, val50, min_comm]
    · rw [if_neg hA, if_neg (fun h => hA (iffHalf.mpr h))]
      by_cases hC : scoreBelow (sentimentScore dict (lowerStr s))
          (wordCount (lowerStr s)) 5 = true
      · rw [if_pos hC, if_pos (iffNegHalf.mp hC)]
        by_cases hD : frustrationCue (lowerStr s)
            (sentimentScore dict (lowerStr s)) (wordCount (lowerStr s)) = true
        · rw [if_pos hD, if_pos (cueIff.mp hD)]
          refine ⟨rfl, ?_⟩
          rw [capConf_val _ wf50abs, val50abs, min_comm]
        · rw [if_neg hD, if_neg (fun h => hD (cueIff.mpr h))]
          refine ⟨rfl, ?_⟩
          rw [capConf_val _ wf50abs, val50abs, min_comm]
      · rw [if_neg hC, if_neg (fun h => hC (iffNegHalf.mpr h))]
        refine ⟨rfl, ?_⟩
        show (capConf (.cent 80)).val = (4 : ℝ) / 5
        rw [capConf_val _ (by exact trivial)]
        rw [min_eq_left]
        · show ((80 : ℤ) : ℝ) / 100 = (4 : ℝ) / 5
          norm_num
        · show ((80 : ℤ) : ℝ) / 100 ≤ (49 : ℝ) / 50
          norm_num

/-! ### Helper lemmas about the two paths of `analyzeSentiment` -/

theorem analyzeSentiment_text_eq (th : ℤ) (dict : Dict) (s : Str) (hs : s ≠ [])
    (hov : overridesResult dict (lowerStr s) = none) :
    analyzeSentiment th dict (.text s) =
      if (genericResult dict s).confidence.ltCent th then ⟨.neutral, .cent 80⟩
      else genericResult dict s := by
  simp only [analyzeSentiment, if_neg hs, hov]

theorem analyzeSentiment_override_eq (th : ℤ) (dict : Dict) (s : Str)
    (r : SResult) (hs : s ≠ [])
    (hov : overridesResult dict (lowerStr s) = some r) :
    analyzeSentiment th dict (.text s) = r := by
  simp only [analyzeSentiment, if_neg hs, hov]

/-- Every override result carries one of the two fixed literal confidences
`0.9` and `0.95`. -/
theorem overridesResult_confidence (dict : Dict) (lower : Str) (r : SResult)
    (h : overridesResult dict lower = some r) :
    r.confidence = .cent 90 ∨ r.confidence = .cent 95 := by
  unfold overridesResult at h
  split_ifs at h <;> (try cases h) <;> simp

theorem capConf_cent80 : capConf (.cent 80) = .cent 80 := by decide

/-- The four non-neutral shapes of the generic result, and the neutral one:
the confidence is always a capped `scaled` number with the score and word
count of the text, or the literal `0.8`. -/
theorem genericResult_shape (dict : Dict) (s : Str) :
    ((genericResult dict s).type = .excitement ∧
      0 < sentimentScore dict (lowerStr s) ∧
      (genericResult dict s).confidence =
        capConf (.scaled (sentimentScore dict (lowerStr s)) 100
          (wordCount (lowerStr s)))) ∨
    ((genericResult dict s).type = .positive ∧
      0 < sentimentScore dict (lowerStr s) ∧
      (genericResult dict s).confidence =
        capConf (.scaled (sentimentScore dict (lowerStr s)) 50
          (wordCount (lowerStr s)))) ∨
    (((genericResult dict s).type = .frustration ∨
        (genericResult dict s).type = .negative) ∧
      sentimentScore dict (lowerStr s) < 0 ∧
      (genericResult dict s).confidence =
        capConf (.scaled |sentimentScore dict (lowerStr s)| 50
          (wordCount (lowerStr s)))) ∨
    ((genericResult dict s).type = .neutral ∧
      (genericResult dict s).confidence = .cent 80) := by
  unfold genericResult rawClassify
  dsimp only
  by_cases hA : scoreAbove (sentimentScore dict (lowerStr s))
      (wordCount (lowerStr s)) 5 = true
  · have hS : 0 < sentimentScore dict (lowerStr s) := by
      have := (Bool.and_eq_true _ _).mp hA
      exact of_decide_eq_true this.1
    rw [if_pos hA]
    by_cases hB : (scoreAbove (sentimentScore dict (lowerStr s))
        (wordCount (lowerStr s)) 15 ||
        (scoreAbove (sentimentScore dict (lowerStr s))
          (wordCount (lowerStr s)) 8 && decide (1 < countExcl s))) = true
    · rw [if_pos hB]
      exact Or.inl ⟨rfl, hS, rfl⟩
    · rw [if_neg hB]
      exact Or.inr (Or.inl ⟨rfl, hS, rfl⟩)
  · rw [if_neg hA]
    by_cases hC : scoreBelow (sentimentScore dict (lowerStr s))
        (wordCount (lowerStr s)) 5 = true
    · have hS : sentimentScore dict (lowerStr s) < 0 := by
        have := (Bool.and_eq_true _ _).mp hC
        exact of_decide_eq_true this.1
      rw [if_pos hC]
      by_cases hD : frustrationCue (lowerStr s)
          (sentimentScore dict (lowerStr s)) (wordCount (lowerStr s)) = true
      · rw [if_pos hD]
        exact Or.inr (Or.inr (Or.inl ⟨Or.inl rfl, hS, rfl⟩))
      · rw [if_neg hD]
        exact Or.inr (Or.inr (Or.inl ⟨Or.inr rfl, hS, rfl⟩))
    · rw [if_neg hC]
      exact Or.inr (Or.inr (Or.inr ⟨rfl, by rw [capConf_cent80]⟩))

/-- The generic confidence is well-formed. -/
theorem genericResult_confidence_wf (dict : Dict) (s : Str) :
    (genericResult dict s).confidence.wf := by
  rcases genericResult_shape dict s with ⟨_, _, h⟩ | ⟨_, _, h⟩ | ⟨_, _, h⟩ | ⟨_, h⟩ <;>
    rw [h]
  · exact capConf_wf _ ⟨by norm_num, wordCount_pos _⟩
  · exact capConf_wf _ ⟨by norm_num, wordCount_pos _⟩
  · exact capConf_wf _ ⟨by norm_num, wordCount_pos _⟩
  · trivial

/-- The capped generic confidence value never drops below `0.7`. -/
theorem genericResult_val_ge (dict : Dict) (s : Str) :
    (7/10 : ℝ) ≤ (genericResult dict s).confidence.val := by
  have base : ∀ (S : ℤ) (D : ℕ), 0 ≤ S → 0 < D →
      (7/10 : ℝ) ≤ (capConf (.scaled S D (wordCount (lowerStr s)))).val := by
    intro S D hS hD
    rw [capConf_val _ (show (JsNum.scaled S D (wordCount (lowerStr s))).wf from
      ⟨hD, wordCount_pos _⟩)]
    have hS' : (0:ℝ) ≤ (S:ℝ) := by exact_mod_cast hS
    have hD' : (0:ℝ) ≤ (D:ℝ) := by positivity
    have hd : (0:ℝ) ≤ (S:ℝ) / ((D:ℝ) * Real.sqrt (wordCount (lowerStr s))) := by
      positivity
    have hval : (JsNum.scaled S D (wordCount (lowerStr s))).val =
        (7:ℝ)/10 + (S:ℝ) / ((D:ℝ) * Real.sqrt (wordCount (lowerStr s))) := rfl
    rw [le_min_iff, hval]
    constructor
    · linarith
    · norm_num
  rcases genericResult_shape dict s with ⟨_, hS, h⟩ | ⟨_, hS, h⟩ | ⟨_, hS, h⟩ | ⟨_, h⟩
  · rw [h]
    exact base _ _ hS.le (by norm_num)
  · rw [h]
    exact base _ _ hS.le (by norm_num)
  · rw [h]
    exact base _ _ (abs_nonneg _) (by norm_num)
  · rw [h]
    show (7/10 : ℝ) ≤ ((80 : ℤ) : ℝ) / 100
    norm_num

/-! ### Claims C10, C5, C4, C3, C2 -/

/-- C10: on the generic path the capped confidence is at least `0.7`
(exactly `0.8` on the neutral branch, and `0.7` plus a nonnegative
increment capped at `0.98` on every other branch), so for every
`confidenceThreshold` at most `0.7` — including the default `0.65` — the
confidence floor never fires and the returned result is the generic result
unchanged. -/
theorem confidence_floor_never_fires (confidenceThreshold : ℤ) (dict : Dict)
    (s : Str) (hs : s ≠ [])
    (hov : overridesResult dict (lowerStr s) = none) :
    (7/10 : ℝ) ≤ (genericResult dict s).confidence.val ∧
    (confidenceThreshold ≤ 70 →
      (genericResult dict s).confidence.ltCent confidenceThreshold = false ∧
      analyzeSentiment confidenceThreshold dict (.text s) =
        genericResult dict s) := by
  refine ⟨genericResult_val_ge dict s, fun hth => ?_⟩
  have hwf := genericResult_confidence_wf dict s
  have hlt : (genericResult dict s).confidence.ltCent confidenceThreshold
      = false := by
    by_contra h
    rw [Bool.not_eq_false] at h
    have hval := (JsNum.ltCent_iff _ _ hwf).mp h
    have hge := genericResult_val_ge dict s
    have hth' : (confidenceThreshold : ℝ) ≤ 70 := by exact_mod_cast hth
    have : ((confidenceThreshold : ℝ)) / 100 ≤ 7/10 := by linarith
    linarith
  refine ⟨hlt, ?_⟩
  rw [analyzeSentiment_text_eq _ _ _ hs hov, hlt]
  simp

/-- C5: when no override rule matches and the capped confidence lies
strictly below the configured threshold, the computed category is
discarded and the result is `{neutral, 0.8}`; when an override rule
matches, its fixed literal confidence (`0.9` or `0.95`) is returned
directly for every threshold — neither subject to the `0.98` cap nor to
the confidence floor, even when the threshold exceeds it. -/
theorem floor_fallback_and_override_literal (confidenceThreshold : ℤ)
    (dict : Dict) (s : Str) (hs : s ≠ []) :
    (overridesResult dict (lowerStr s) = none →
      (genericResult dict s).confidence.val < (confidenceThreshold : ℝ) / 100 →
      analyzeSentiment confidenceThreshold dict (.text s) =
        ⟨.neutral, .cent 80⟩) ∧
    (∀ r, overridesResult dict (lowerStr s) = some r →
      analyzeSentiment confidenceThreshold dict (.text s) = r ∧
      (r.confidence = .cent 90 ∨ r.confidence = .cent 95)) := by
  constructor
  · intro hov hval
    have hwf := genericResult_confidence_wf dict s
    have hlt : (genericResult dict s).confidence.ltCent confidenceThreshold
        = true := (JsNum.ltCent_iff _ _ hwf).mpr hval
    rw [analyzeSentiment_text_eq _ _ _ hs hov, hlt]
    simp
  · intro r hov
    exact ⟨analyzeSentiment_override_eq _ _ _ _ hs hov,
      overridesResult_confidence _ _ _ hov⟩

/-- C4 (amended): when the merged lexicon maps the literal key
`'spectacular'` to a weight of at least `1.8` and the lowercased content
contains `'spectacular'`, and none of the four earlier override rules
matches, `analyzeSentiment` returns `{excitement, 0.90}`. -/
theorem spectacular_override (confidenceThreshold : ℤ) (dict : Dict)
    (s : Str) (v : ℤ) (hs : s ≠ [])
    (hlook : dictLookup dict (str "spectacular") = some v) (hv : 18 ≤ v)
    (hcont : containsSub (str "spectacular") (lowerStr s) = true)
    (h1 : rule1 (lowerStr s) = false) (h2 : rule2 (lowerStr s) = false)
    (h3 : rule3 (lowerStr s) = false) (h4 : rule4 (lowerStr s) = false) :
    analyzeSentiment confidenceThreshold dict (.text s) =
      ⟨.excitement, .cent 90⟩ := by
  have h5 : rule5 dict (lowerStr s) = true := by
    unfold rule5
    rw [hcont, hlook]
    simp [hv]
  apply analyzeSentiment_override_eq _ _ _ _ hs
  unfold overridesResult
  rw [h1, h2, h3, h4, h5]
  simp

/-- The merged lexicon of the C4 counterexample: the built-in dictionary
together with a custom term of weight `1.9`. -/
def megaDict : Dict := objectAssign defaultDictionary [(str "megagood", 19)]

/-- The content of the C4 counterexample. -/
def megaText : Str := str "this is megagood indeed"

/-- C4 counterexample: `megaDict` maps `megagood` to weight `1.9 ≥ 1.8`,
the content contains that term and matches none of the four earlier
override rules, yet `analyzeSentiment` returns `positive` (with
confidence `0.96`), not `{excitement, 0.90}` — override rule 5 tests only
the literal key `'spectacular'`, not every high-weight term. -/
theorem high_weight_term_not_excitement :
    dictLookup megaDict (str "megagood") = some 19 ∧
    containsSub (str "megagood") (lowerStr megaText) = true ∧
    rule1 (lowerStr megaText) = false ∧ rule2 (lowerStr megaText) = false ∧
    rule3 (lowerStr megaText) = false ∧ rule4 (lowerStr megaText) = false ∧
    analyzeSentiment 65 megaDict (.text megaText) =
      ⟨.positive, .scaled 26 50 4⟩ ∧
    (analyzeSentiment 65 megaDict (.text megaText)).type ≠ .excitement := by
  decide

/-- C3 counterexample: the empty string is falsy in JavaScript, so the
guard `!content || typeof content !== 'string'` catches it and the result
is `{neutral, 1.0}` — not the generic-path `{neutral, 0.8}` the
specification describes. -/
theorem empty_string_takes_guard :
    analyzeSentiment 65 defaultDictionary (.text []) = ⟨.neutral, .cent 100⟩ ∧
    analyzeSentiment 65 defaultDictionary (.text []) ≠ ⟨.neutral, .cent 80⟩ := by
  decide

/-- C3 (amended): for every configuration, the empty string yields
`{neutral, 1.0}` through the non-text guard. -/
theorem empty_string_neutral_certainty (confidenceThreshold : ℤ)
    (dict : Dict) :
    analyzeSentiment confidenceThreshold dict (.text []) =
      ⟨.neutral, .cent 100⟩ := rfl

/-- C2 (amended): whenever every merged-lexicon term is free of regex
metacharacters — in particular for the built-in dictionary and custom
terms that are plain words — the scorer returns a result for every
content; the guard and override paths return for every dictionary. -/
theorem analyzeSentimentChecked_total (confidenceThreshold : ℤ) (dict : Dict)
    (content : MsgContent)
    (hdict : dict.all (fun p => termRegexOk p.1) = true) :
    analyzeSentimentChecked confidenceThreshold dict content =
      some (analyzeSentiment confidenceThreshold dict content) := by
  cases content with
  | text s =>
      simp only [analyzeSentimentChecked, analyzeSentiment]
      by_cases hs : s = []
      · simp [hs]
      · simp only [if_neg hs]
        cases hov : overridesResult dict (lowerStr s) with
        | some r => simp [hov]
        | none => simp [hov, hdict]
  | absent => rfl
  | nullVal => rfl
  | nonText => rfl

/-- The merged lexicon of the C2 counterexample: a custom entry whose key
is the single character `'('`. -/
def parenDict : Dict := objectAssign defaultDictionary [([Char.ofNat 40], 10)]

/-- C2 counterexample: with the custom term `'('` the scoring loop
constructs `new RegExp('\\b(\\b|(', 'gi')`, which throws a `SyntaxError`
(unterminated group) in JavaScript, so `analyzeSentiment` raises instead
of returning: the checked model yields `none` on ordinary text. -/
theorem paren_term_throws :
    analyzeSentimentChecked 65 parenDict (.text (str "hello there")) =
      none := by
  decide

/-! ### Witnesses for the scorer-level claims -/

/-- Witness for C1: the lexicon `{great: 1.0}` on `"great stuff"`. -/
theorem analyzeSentiment_generic_spec_witness :
    (str "great stuff" ≠ []) ∧
    overridesResult [(str "great", 10)] (lowerStr (str "great stuff")) = none ∧
    (analyzeSentiment 65 [(str "great", 10)] (.text (str "great stuff")) =
      (if (genericResult [(str "great", 10)]
            (str "great stuff")).confidence.ltCent 65 then
        ⟨.neutral, .cent 80⟩
       else genericResult [(str "great", 10)] (str "great stuff")) ∧
     (genericResult [(str "great", 10)] (str "great stuff")).type =
       (specClassify [(str "great", 10)] (str "great stuff")).1 ∧
     (genericResult [(str "great", 10)] (str "great stuff")).confidence.val =
       (specClassify [(str "great", 10)] (str "great stuff")).2) :=
  ⟨by decide, by decide,
    analyzeSentiment_generic_spec 65 [(str "great", 10)] (str "great stuff")
      (by decide) (by decide)⟩

/-- Witness for C10: the same concrete input, with the default threshold. -/
theorem confidence_floor_never_fires_witness :
    (str "great stuff" ≠ []) ∧
    overridesResult [(str "great", 10)] (lowerStr (str "great stuff")) = none ∧
    ((65 : ℤ) ≤ 70) ∧
    ((7/10 : ℝ) ≤
      (genericResult [(str "great", 10)] (str "great stuff")).confidence.val ∧
     ((genericResult [(str "great", 10)]
        (str "great stuff")).confidence.ltCent 65 = false ∧
      analyzeSentiment 65 [(str "great", 10)] (.text (str "great stuff")) =
        genericResult [(str "great", 10)] (str "great stuff"))) := by
  have h := confidence_floor_never_fires 65 [(str "great", 10)]
    (str "great stuff") (by decide) (by decide)
  exact ⟨by decide, by decide, by decide, h.1, h.2 (by decide)⟩

/-- Witness for C5: a low-confidence text floored to neutral under
threshold `0.9`, and an override returned literally even under threshold
`0.99`, which exceeds its fixed confidence `0.9`. -/
theorem floor_fallback_and_override_literal_witness :
    analyzeSentiment 90 defaultDictionary
      (.text (str "This is somewhat good")) = ⟨.neutral, .cent 80⟩ ∧
    analyzeSentiment 99 defaultDictionary
      (.text (str "I am really happy and it works great")) =
      ⟨.positive, .cent 90⟩ := by
  constructor
  · apply (floor_fallback_and_override_literal 90 defaultDictionary
      (str "This is somewhat good") (by decide)).1 (by decide)
    have h : genericResult defaultDictionary (str "This is somewhat good") =
        ⟨.neutral, .cent 80⟩ := by decide
    rw [h]
    show ((80 : ℤ) : ℝ) / 100 < ((90 : ℤ) : ℝ) / 100
    norm_num
  · exact ((floor_fallback_and_override_literal 99 defaultDictionary
      (str "I am really happy and it works great") (by decide)).2
      ⟨.positive, .cent 90⟩ (by decide)).1

/-- Witness for the amended C4: the built-in dictionary itself maps
`'spectacular'` to `1.8`. -/
theorem spectacular_override_witness :
    dictLookup defaultDictionary (str "spectacular") = some 18 ∧
    ((18 : ℤ) ≤ 18) ∧
    containsSub (str "spectacular")
      (lowerStr (str "that was spectacular indeed")) = true ∧
    rule1 (lowerStr (str "that was spectacular indeed")) = false ∧
    rule2 (lowerStr (str "that was spectacular indeed")) = false ∧
    rule3 (lowerStr (str "that was spectacular indeed")) = false ∧
    rule4 (lowerStr (str "that was spectacular indeed")) = false ∧
    analyzeSentiment 65 defaultDictionary
      (.text (str "that was spectacular indeed")) =
      ⟨.excitement, .cent 90⟩ :=
  ⟨by decide, by decide, by decide, by decide, by decide, by decide, by decide,
    spectacular_override 65 defaultDictionary
      (str "that was spectacular indeed") 18 (by decide) (by decide)
      (by decide) (by decide) (by decide) (by decide) (by decide) (by decide)⟩

/-- Witness for the amended C2: the built-in dictionary is regex-safe. -/
theorem analyzeSentimentChecked_total_witness :
    defaultDictionary.all (fun p => termRegexOk p.1) = true ∧
    analyzeSentimentChecked 65 defaultDictionary (.text (str "hello there")) =
      some (analyzeSentiment 65 defaultDictionary (.text (str "hello there"))) :=
  ⟨by decide,
    analyzeSentimentChecked_total 65 defaultDictionary
      (.text (str "hello there")) (by decide)⟩

/-! ### The message level: claims C6, C7, C8 -/

/-- Assignment writes the value the lookup then reads. -/
theorem lookupTag_setTag_self (tags : List (Str × Json)) (k : Str) (v : Json) :
    lookupTag (setTag tags k v) k = some v := by
  induction tags with
  | nil => simp [setTag, lookupTag]
  | cons p rest ih =>
      by_cases h : p.1 = k
      · simp [setTag, h, lookupTag]
      · simp only [setTag, if_neg h, lookupTag]
        exact ih

/-- The entries of an ordered key-value object other than key `k`. -/
def eraseKey (tags : List (Str × Json)) (k : Str) : List (Str × Json) :=
  tags.filter (fun p => !decide (p.1 = k))

/-- Assignment changes nothing outside the assigned key. -/
theorem eraseKey_setTag (tags : List (Str × Json)) (k : Str) (v : Json) :
    eraseKey (setTag tags k v) k = eraseKey tags k := by
  induction tags with
  | nil => simp [setTag, eraseKey]
  | cons p rest ih =>
      by_cases h : p.1 = k
      · simp [setTag, h, eraseKey, List.filter]
      · simp only [setTag, if_neg h, eraseKey] at ih ⊢
        simp [h, List.filter_cons, ih]

/-- The tag the analyzer writes is truthy (it is an object). -/
theorem jsTruthy_sentimentJson (r : SResult) :
    jsTruthy (sentimentJson r) = true := rfl

/-- A present and truthy sentiment value is kept unchanged. -/
theorem analyze_keeps_truthy (th : ℤ) (dict : Dict) (m : Message) (v : Json)
    (hl : lookupTag (m.behaviorTags.getD []) sentimentKey = some v)
    (ht : jsTruthy v = true) :
    lookupTag ((analyze th dict m).behaviorTags.getD []) sentimentKey =
      some v := by
  unfold analyze
  simp only [hl, ht, if_true]
  exact hl

/-- After `analyze`, the sentiment entry is present and truthy. -/
theorem analyze_has_truthy_sentiment (th : ℤ) (dict : Dict) (m : Message) :
    ∃ t, lookupTag ((analyze th dict m).behaviorTags.getD []) sentimentKey =
        some t ∧ jsTruthy t = true := by
  cases hl : lookupTag (m.behaviorTags.getD []) sentimentKey with
  | some v =>
      by_cases ht : jsTruthy v = true
      · refine ⟨v, ?_, ht⟩
        unfold analyze
        simp only [hl, ht, if_true]
        exact hl
      · have ht' : jsTruthy v = false := by
          revert ht
          cases jsTruthy v <;> simp
        refine ⟨sentimentJson (analyzeSentiment th dict m.content), ?_, rfl⟩
        unfold analyze
        simp only [hl, ht', Bool.false_eq_true, if_false]
        exact lookupTag_setTag_self _ _ _
  | none =>
      refine ⟨sentimentJson (analyzeSentiment th dict m.content), ?_, rfl⟩
      unfold analyze
      simp only [hl, Bool.false_eq_true, if_false]
      exact lookupTag_setTag_self _ _ _

/-- C7 (amended): a present and truthy `behaviorTags.sentiment` value is
returned unchanged — but a present and falsy value (such as `null`) is
overwritten, because line 108 tests truthiness, not presence.
Consequently `analyze` agrees with its own second application on
`behaviorTags.sentiment` for every message: the tag it writes is itself
truthy. -/
theorem analyze_sentiment_idempotent (confidenceThreshold : ℤ) (dict : Dict) :
    (∀ (m : Message) (v : Json),
      lookupTag (m.behaviorTags.getD []) sentimentKey = some v →
      jsTruthy v = true →
      lookupTag ((analyze confidenceThreshold dict m).behaviorTags.getD [])
        sentimentKey = some v) ∧
    (∀ m : Message,
      lookupTag ((analyze confidenceThreshold dict
          (analyze confidenceThreshold dict m)).behaviorTags.getD [])
        sentimentKey =
      lookupTag ((analyze confidenceThreshold dict m).behaviorTags.getD [])
        sentimentKey) := by
  refine ⟨fun m v hl ht => analyze_keeps_truthy _ _ m v hl ht, fun m => ?_⟩
  obtain ⟨t, hl, ht⟩ :=
    analyze_has_truthy_sentiment confidenceThreshold dict m
  rw [analyze_keeps_truthy _ _ _ t hl ht, hl]

/-- The message of the C7 counterexample: a `behaviorTags.sentiment` field
is present, with value `null`. -/
def nullSentMsg : Message :=
  ⟨.text (str "hello"), some [(sentimentKey, Json.null)], []⟩

/-- C7 counterexample: the input has a `behaviorTags.sentiment` field
(value `null`), yet `analyze` does not return it unchanged — the falsy
value is replaced by the computed tag. -/
theorem null_sentiment_overwritten :
    lookupTag (nullSentMsg.behaviorTags.getD []) sentimentKey =
      some Json.null ∧
    lookupTag ((analyze 65 defaultDictionary nullSentMsg).behaviorTags.getD [])
      sentimentKey = some (sentimentJson ⟨.neutral, .cent 80⟩) ∧
    sentimentJson ⟨.neutral, .cent 80⟩ ≠ Json.null := by
  refine ⟨rfl, rfl, ?_⟩
  intro h
  exact Json.noConfusion h

/-- C8: `analyze` is a pure function of the message (the JSON round-trip
copy of line 100 leaves the input untouched), and its output agrees with
the input on `content`, on every top-level field other than
`behavior_tags`, and on every `behavior_tags` entry other than
`sentiment`. -/
theorem analyze_frame (confidenceThreshold : ℤ) (dict : Dict) (m : Message) :
    (analyze confidenceThreshold dict m).content = m.content ∧
    (analyze confidenceThreshold dict m).rest = m.rest ∧
    eraseKey ((analyze confidenceThreshold dict m).behaviorTags.getD [])
      sentimentKey = eraseKey (m.behaviorTags.getD []) sentimentKey := by
  unfold analyze
  dsimp only
  split_ifs with h
  · exact ⟨rfl, rfl, rfl⟩
  · exact ⟨rfl, rfl, eraseKey_setTag _ _ _⟩

/-- C6 (amended): for content that is absent, `null` or not a string, and
an input message whose `behaviorTags.sentiment` is absent or falsy,
`analyze` returns a message whose `behaviorTags.sentiment` is
`{detected: neutral, confidence: 1.0}`. -/
theorem analyze_nonText_neutral_certainty (confidenceThreshold : ℤ)
    (dict : Dict) (m : Message)
    (hc : m.content = .absent ∨ m.content = .nullVal ∨ m.content = .nonText)
    (hns : ∀ v, lookupTag (m.behaviorTags.getD []) sentimentKey = some v →
      jsTruthy v = false) :
    lookupTag ((analyze confidenceThreshold dict m).behaviorTags.getD [])
      sentimentKey = some (sentimentJson ⟨.neutral, .cent 100⟩) := by
  have hres : analyzeSentiment confidenceThreshold dict m.content =
      ⟨.neutral, .cent 100⟩ := by
    rcases hc with hc | hc | hc <;> rw [hc] <;> rfl
  cases hl : lookupTag (m.behaviorTags.getD []) sentimentKey with
  | some v =>
      have ht' := hns v hl
      unfold analyze
      simp only [hl, ht', Bool.false_eq_true, if_false, hres]
      exact lookupTag_setTag_self _ _ _
  | none =>
      unfold analyze
      simp only [hl, Bool.false_eq_true, if_false, hres]
      exact lookupTag_setTag_self _ _ _

/-- The message of the C6 counterexample: `null` content together with a
caller-supplied truthy sentiment tag. -/
def presetMsg : Message :=
  ⟨.nullVal,
   some [(sentimentKey, Json.obj [(str "detected", Json.jstr (str "excited"))])],
   []⟩

/-- C6 counterexample: the content is `null`, yet `analyze` returns the
caller-supplied sentiment tag, not `{neutral, 1.0}` — a preexisting truthy
sentiment wins over the guard. -/
theorem preset_sentiment_kept :
    presetMsg.content = .nullVal ∧
    lookupTag ((analyze 65 defaultDictionary presetMsg).behaviorTags.getD [])
      sentimentKey =
      some (Json.obj [(str "detected", Json.jstr (str "excited"))]) ∧
    Json.obj [(str "detected", Json.jstr (str "excited"))] ≠
      sentimentJson ⟨.neutral, .cent 100⟩ := by
  refine ⟨rfl, rfl, ?_⟩
  intro h
  injection h with h1
  have := congrArg List.length h1
  simp [sentimentJson] at this

/-! ### Claim C9: monotone dilution -/

/-- The contains-phrases of the override chain (rules 1-5). -/
def overridePhrases : List Str :=
  [str "really happy", str "works great", str "terrible",
   str "disappointed", str "frustrated", str "told you multiple times",
   stillDoesntWork, str "wow", str "amazing", cantBelieve,
   str "spectacular"]

/-- The frustration-indicator substrings of the negative branch. -/
def frustrationPhrases : List Str :=
  [str "already", str "still", str "multiple times", str "told you",
   doesntWork]

theorem lowerStr_append (s u : Str) :
    lowerStr (s ++ u) = lowerStr s ++ lowerStr u := by
  simp [lowerStr]

/-- Appending text cannot decrease the number of whitespace runs. -/
theorem countWsRunsAux_append_le (s u : Str) :
    ∀ b, countWsRunsAux s b ≤ countWsRunsAux (s ++ u) b := by
  induction s with
  | nil => intro b; exact Nat.zero_le _
  | cons c rest ih =>
      intro b
      by_cases h : isJsWs c = true
      · cases b
        · simp only [List.cons_append, countWsRunsAux, h, if_true]
          exact Nat.add_le_add_left (ih true) 1
        · simp only [List.cons_append, countWsRunsAux, h, if_true]
          exact ih true
      · simp only [List.cons_append, countWsRunsAux, h, Bool.false_eq_true,
          if_false]
        exact ih false

/-- Appending text cannot decrease the word count. -/
theorem wordCount_append_le (s u : Str) :
    wordCount s ≤ wordCount (s ++ u) := by
  unfold wordCount countWsRuns
  exact Nat.add_le_add_right (countWsRunsAux_append_le s u false) 1

/-- Texts with the same per-term occurrence counts get the same score. -/
theorem sentimentScore_congr (dict : Dict) (l l' : Str)
    (h : ∀ p ∈ dict, countOccs (lowerStr p.1) l' = countOccs (lowerStr p.1) l) :
    sentimentScore dict l' = sentimentScore dict l := by
  unfold sentimentScore
  congr 1
  apply List.map_congr_left
  intro p hp
  rw [h p hp]

/-- Texts agreeing on every override phrase get the same override result. -/
theorem overridesResult_congr (dict : Dict) (l l' : Str)
    (h : ∀ p ∈ overridePhrases, containsSub p l' = containsSub p l) :
    overridesResult dict l' = overridesResult dict l := by
  unfold overridesResult rule1 rule2 rule3 rule4 rule5
  rw [h (str "really happy") (by decide), h (str "works great") (by decide),
    h (str "terrible") (by decide), h (str "disappointed") (by decide),
    h (str "frustrated") (by decide),
    h (str "told you multiple times") (by decide),
    h stillDoesntWork (by decide), h (str "wow") (by decide),
    h (str "amazing") (by decide), h cantBelieve (by decide),
    h (str "spectacular") (by decide)]

/-- Increasing the word count (same score, same `D`) cannot increase the
capped confidence value. -/
theorem capConf_scaled_val_mono (S : ℤ) (D : ℕ) (w w' : ℕ) (hS : 0 ≤ S)
    (hD : 0 < D) (hw : 0 < w) (hww : w ≤ w') :
    (capConf (.scaled S D w')).val ≤ (capConf (.scaled S D w)).val := by
  have hw' : 0 < w' := lt_of_lt_of_le hw hww
  rw [capConf_val _ (show (JsNum.scaled S D w').wf from ⟨hD, hw'⟩),
    capConf_val _ (show (JsNum.scaled S D w).wf from ⟨hD, hw⟩)]
  apply min_le_min _ le_rfl
  show (7:ℝ)/10 + (S:ℝ) / ((D:ℝ) * Real.sqrt w') ≤
    (7:ℝ)/10 + (S:ℝ) / ((D:ℝ) * Real.sqrt w)
  have hS' : (0:ℝ) ≤ (S:ℝ) := by exact_mod_cast hS
  have hD' : (0:ℝ) ≤ (D:ℝ) := by positivity
  have h1 : Real.sqrt w ≤ Real.sqrt w' := by
    apply Real.sqrt_le_sqrt
    exact_mod_cast hww
  have h2 : (0:ℝ) < (D:ℝ) * Real.sqrt w := by
    have := sqrt_nat_pos hw
    have hD2 : (0:ℝ) < (D:ℝ) := by exact_mod_cast hD
    positivity
  have h3 : (D:ℝ) * Real.sqrt w ≤ (D:ℝ) * Real.sqrt w' :=
    mul_le_mul_of_nonneg_left h1 hD'
  have h4 : (S:ℝ) / ((D:ℝ) * Real.sqrt w') ≤ (S:ℝ) / ((D:ℝ) * Real.sqrt w) :=
    div_le_div_of_nonneg_left hS' h2 h3
  linarith

theorem generic_type_excitement (dict : Dict) (s : Str)
    (h : (genericResult dict s).type = .excitement) :
    0 < sentimentScore dict (lowerStr s) ∧
    (genericResult dict s).confidence =
      capConf (.scaled (sentimentScore dict (lowerStr s)) 100
        (wordCount (lowerStr s))) := by
  rcases genericResult_shape dict s with ⟨t, hS, hc⟩ | ⟨t, hS, hc⟩ |
    ⟨t, hS, hc⟩ | ⟨t, hc⟩
  · exact ⟨hS, hc⟩
  · rw [t] at h; cases h
  · rcases t with t | t <;> (rw [t] at h; cases h)
  · rw [t] at h; cases h

theorem generic_type_positive (dict : Dict) (s : Str)
    (h : (genericResult dict s).type = .positive) :
    0 < sentimentScore dict (lowerStr s) ∧
    (genericResult dict s).confidence =
      capConf (.scaled (sentimentScore dict (lowerStr s)) 50
        (wordCount (lowerStr s))) := by
  rcases genericResult_shape dict s with ⟨t, hS, hc⟩ | ⟨t, hS, hc⟩ |
    ⟨t, hS, hc⟩ | ⟨t, hc⟩
  · rw [t] at h; cases h
  · exact ⟨hS, hc⟩
  · rcases t with t | t <;> (rw [t] at h; cases h)
  · rw [t] at h; cases h

theorem generic_type_negmood (dict : Dict) (s : Str)
    (h : (genericResult dict s).type = .frustration ∨
      (genericResult dict s).type = .negative) :
    sentimentScore dict (lowerStr s) < 0 ∧
    (genericResult dict s).confidence =
      capConf (.scaled |sentimentScore dict (lowerStr s)| 50
        (wordCount (lowerStr s))) := by
  rcases genericResult_shape dict s with ⟨t, hS, hc⟩ | ⟨t, hS, hc⟩ |
    ⟨t, hS, hc⟩ | ⟨t, hc⟩
  · rcases h with h | h <;> (rw [t] at h; cases h)
  · rcases h with h | h <;> (rw [t] at h; cases h)
  · exact ⟨hS, hc⟩
  · rcases h with h | h <;> (rw [t] at h; cases h)

theorem generic_type_neutral (dict : Dict) (s : Str)
    (h : (genericResult dict s).type = .neutral) :
    (genericResult dict s).confidence = .cent 80 := by
  rcases genericResult_shape dict s with ⟨t, hS, hc⟩ | ⟨t, hS, hc⟩ |
    ⟨t, hS, hc⟩ | ⟨t, hc⟩
  · rw [t] at h; cases h
  · rw [t] at h; cases h
  · rcases t with t | t <;> (rw [t] at h; cases h)
  · exact hc

/-- C9: monotone dilution.  Append filler `u` to a nonempty text `s` such
that no lexicon term gains an occurrence, no override or
frustration-indicator phrase changes its presence, and no `!` is added.
If the classification of `s ++ u` has the same category as that of `s`,
its confidence is at most that of `s`: the score is unchanged while the
word count cannot decrease, so `score / sqrt(wordCount)` moves toward
zero. -/
theorem dilution_monotone (confidenceThreshold : ℤ) (dict : Dict)
    (s u : Str) (hs : s ≠ [])
    (hterm : ∀ p ∈ dict, countOccs (lowerStr p.1) (lowerStr (s ++ u)) =
      countOccs (lowerStr p.1) (lowerStr s))
    (hphr : ∀ p ∈ overridePhrases ++ frustrationPhrases,
      containsSub p (lowerStr (s ++ u)) = containsSub p (lowerStr s))
    (hexcl : countExcl (s ++ u) = countExcl s)
    (hcat : (analyzeSentiment confidenceThreshold dict (.text (s ++ u))).type =
      (analyzeSentiment confidenceThreshold dict (.text s)).type) :
    (analyzeSentiment confidenceThreshold dict
        (.text (s ++ u))).confidence.val ≤
      (analyzeSentiment confidenceThreshold dict (.text s)).confidence.val := by
  have hsu : s ++ u ≠ [] := fun h => hs (List.append_eq_nil.mp h).1
  have hscore : sentimentScore dict (lowerStr (s ++ u)) =
      sentimentScore dict (lowerStr s) := sentimentScore_congr dict _ _ hterm
  have hov2 : overridesResult dict (lowerStr (s ++ u)) =
      overridesResult dict (lowerStr s) :=
    overridesResult_congr dict _ _
      (fun p hp => hphr p (List.mem_append.mpr (Or.inl hp)))
  have hw_le : wordCount (lowerStr s) ≤ wordCount (lowerStr (s ++ u)) := by
    rw [lowerStr_append]
    exact wordCount_append_le _ _
  cases hov : overridesResult dict (lowerStr s) with
  | some r =>
      rw [analyzeSentiment_override_eq _ _ _ r hsu (hov2.trans hov),
        analyzeSentiment_override_eq _ _ _ r hs hov]
  | none =>
      have hovU : overridesResult dict (lowerStr (s ++ u)) = none :=
        hov2.trans hov
      rw [analyzeSentiment_text_eq _ _ _ hsu hovU,
        analyzeSentiment_text_eq _ _ _ hs hov] at hcat ⊢
      by_cases bU : (genericResult dict (s ++ u)).confidence.ltCent
          confidenceThreshold = true
      · by_cases bS : (genericResult dict s).confidence.ltCent
            confidenceThreshold = true
        · rw [if_pos bU, if_pos bS]
        · rw [if_pos bU, if_neg bS] at hcat ⊢
          have ht : (genericResult dict s).type = .neutral := hcat.symm
          have hc := generic_type_neutral dict s ht
          rw [hc]
      · by_cases bS : (genericResult dict s).confidence.ltCent
            confidenceThreshold = true
        · rw [if_neg bU, if_pos bS] at hcat ⊢
          have ht : (genericResult dict (s ++ u)).type = .neutral := hcat
          have hc := generic_type_neutral dict (s ++ u) ht
          rw [hc]
        · rw [if_neg bU, if_neg bS] at hcat ⊢
          cases ht : (genericResult dict s).type with
          | neutral =>
              rw [generic_type_neutral dict s ht,
                generic_type_neutral dict (s ++ u) (hcat.trans ht)]
          | excitement =>
              obtain ⟨hS2, hc2⟩ := generic_type_excitement dict s ht
              obtain ⟨hS1, hc1⟩ :=
                generic_type_excitement dict (s ++ u) (hcat.trans ht)
              rw [hc1, hc2, hscore]
              exact capConf_scaled_val_mono _ 100 _ _ hS2.le (by norm_num)
                (wordCount_pos _) hw_le
          | positive =>
              obtain ⟨hS2, hc2⟩ := generic_type_positive dict s ht
              obtain ⟨hS1, hc1⟩ :=
                generic_type_positive dict (s ++ u) (hcat.trans ht)
              rw [hc1, hc2, hscore]
              exact capConf_scaled_val_mono _ 50 _ _ hS2.le (by norm_num)
                (wordCount_pos _) hw_le
          | frustration =>
              obtain ⟨hS2, hc2⟩ := generic_type_negmood dict s (Or.inl ht)
              obtain ⟨hS1, hc1⟩ := generic_type_negmood dict (s ++ u)
                (Or.inl (hcat.trans ht))
              rw [hc1, hc2, hscore]
              exact capConf_scaled_val_mono _ 50 _ _ (abs_nonneg _)
                (by norm_num) (wordCount_pos _) hw_le
          | negative =>
              obtain ⟨hS2, hc2⟩ := generic_type_negmood dict s (Or.inr ht)
              obtain ⟨hS1, hc1⟩ := generic_type_negmood dict (s ++ u)
                (Or.inr (hcat.trans ht))
              rw [hc1, hc2, hscore]
              exact capConf_scaled_val_mono _ 50 _ _ (abs_nonneg _)
                (by norm_num) (wordCount_pos _) hw_le

/-- Witness for C9: `{great: 1.0}` on `"great great stuff"` against the
same text with `" on the table"` appended; both classify `positive`. -/
theorem dilution_monotone_witness :
    (str "great great stuff" ≠ []) ∧
    (∀ p ∈ ([(str "great", 10)] : Dict),
      countOccs (lowerStr p.1)
        (lowerStr (str "great great stuff" ++ str " on the table")) =
      countOccs (lowerStr p.1) (lowerStr (str "great great stuff"))) ∧
    (∀ p ∈ overridePhrases ++ frustrationPhrases,
      containsSub p
        (lowerStr (str "great great stuff" ++ str " on the table")) =
      containsSub p (lowerStr (str "great great stuff"))) ∧
    countExcl (str "great great stuff" ++ str " on the table") =
      countExcl (str "great great stuff") ∧
    (analyzeSentiment 65 [(str "great", 10)]
        (.text (str "great great stuff" ++ str " on the table"))).type =
      (analyzeSentiment 65 [(str "great", 10)]
        (.text (str "great great stuff"))).type ∧
    (analyzeSentiment 65 [(str "great", 10)]
        (.text (str "great great stuff" ++ str " on the table"))).confidence.val ≤
      (analyzeSentiment 65 [(str "great", 10)]
        (.text (str "great great stuff"))).confidence.val :=
  ⟨by decide, by decide, by decide, by decide, by decide,
    dilution_monotone 65 [(str "great", 10)] (str "great great stuff")
      (str " on the table") (by decide) (by decide) (by decide) (by decide)
      (by decide)⟩

/-! ### Witnesses for the message-level claims -/

/-- The message of the C6 witness: absent content, empty tags object. -/
def absentMsg : Message := ⟨.absent, some [], []⟩

/-- Witness for the amended C6. -/
theorem analyze_nonText_neutral_certainty_witness :
    (absentMsg.content = .absent ∨ absentMsg.content = .nullVal ∨
      absentMsg.content = .nonText) ∧
    (∀ v, lookupTag (absentMsg.behaviorTags.getD []) sentimentKey = some v →
      jsTruthy v = false) ∧
    lookupTag ((analyze 65 defaultDictionary absentMsg).behaviorTags.getD [])
      sentimentKey = some (sentimentJson ⟨.neutral, .cent 100⟩) :=
  ⟨Or.inl rfl, fun _ h => Option.noConfusion h,
    analyze_nonText_neutral_certainty 65 defaultDictionary absentMsg
      (Or.inl rfl) (fun _ h => Option.noConfusion h)⟩

/-- The message of the C7 witness: a truthy sentiment value is present. -/
def truthySentMsg : Message :=
  ⟨.text (str "hi"), some [(sentimentKey, Json.boolean true)], []⟩

/-- Witness for the amended C7. -/
theorem analyze_sentiment_idempotent_witness :
    lookupTag (truthySentMsg.behaviorTags.getD []) sentimentKey =
      some (Json.boolean true) ∧
    jsTruthy (Json.boolean true) = true ∧
    lookupTag ((analyze 65 defaultDictionary truthySentMsg).behaviorTags.getD [])
      sentimentKey = some (Json.boolean true) ∧
    lookupTag ((analyze 65 defaultDictionary
        (analyze 65 defaultDictionary truthySentMsg)).behaviorTags.getD [])
      sentimentKey =
      lookupTag ((analyze 65 defaultDictionary
        truthySentMsg).behaviorTags.getD []) sentimentKey :=
  ⟨rfl, rfl,
    (analyze_sentiment_idempotent 65 defaultDictionary).1 truthySentMsg
      (Json.boolean true) rfl rfl,
    (analyze_sentiment_idempotent 65 defaultDictionary).2 truthySentMsg⟩

end MCPL
